import Mathlib

/-!
Shallow embedding of the brown-dwarf candidate-selection pipeline from
`Notebooks/Discovery_of_Brown_Dwarfs_mining_the_2MASS_and_SDSS_databases.ipynb`.

The notebook cross-matches a 2MASS point-source table with the SDSS DR9
catalogue (via the CDS XMatch service), projects the joined table to fifteen
columns, adds two derived colour columns in place, and selects brown-dwarf
candidates with a four-term conjunctive filter:

  sdss_mass['J-H'] = sdss_mass['Jmag'] - sdss_mass['Hmag']
  sdss_mass['H-K'] = sdss_mass['Hmag'] - sdss_mass['Kmag']
  index_bd = (sdss_mass['umag'] > 22.0) & (sdss_mass['gmag'] > 22.2) & \
      (sdss_mass['J-H'] < 0.3) & (sdss_mass['H-K'] < 0.3)
  candidates = sdss_mass[index_bd]

Magnitudes are modelled as `Option ℚ`: astropy tables read from VOTables carry
masked (missing) entries, and a masked magnitude makes every comparison of
that row evaluate to false, so the row is dropped by the boolean index.
Rational numbers stand in for the floating-point magnitudes; all thresholds
and sample values are decimal fractions represented exactly.
-/

namespace BrownDwarfs

/-- A row of the joined table `sdss_mass` after the fifteen-column projection
`sdss_mass['2MASS', 'RAJ2000', 'DEJ2000', 'Jmag', 'Hmag', 'Kmag', 'SDSS9',
'RAdeg', 'DEdeg', 'umag', 'gmag', 'rmag', 'imag', 'zmag', 'cl']`.
The Python column name `2MASS` is not a valid Lean identifier and is rendered
`twoMASS`. Magnitude columns may be masked, hence `Option ℚ`. -/
structure JoinedRow where
  twoMASS : String
  RAJ2000 : ℚ
  DEJ2000 : ℚ
  Jmag : Option ℚ
  Hmag : Option ℚ
  Kmag : Option ℚ
  SDSS9 : String
  RAdeg : ℚ
  DEdeg : ℚ
  umag : Option ℚ
  gmag : Option ℚ
  rmag : Option ℚ
  imag : Option ℚ
  zmag : Option ℚ
  cl : Int
deriving DecidableEq

/-- A row of `sdss_mass` after the two in-place column additions: the original
row plus the derived colour columns `J-H` (here `jmh`) and `H-K` (here `hmk`). -/
structure DerivedRow where
  base : JoinedRow
  jmh : Option ℚ
  hmk : Option ℚ
deriving DecidableEq

/-- Masked subtraction: `sdss_mass['Jmag'] - sdss_mass['Hmag']` propagates the
mask, so the difference of a masked entry is masked. -/
def msub (x y : Option ℚ) : Option ℚ :=
  match x, y with
  | some a, some b => some (a - b)
  | _, _ => none

/-- Masked strict greater-than against a constant: a masked entry compares
false, so the row cannot be selected by the boolean index. -/
def mgt (x : Option ℚ) (c : ℚ) : Bool :=
  match x with
  | some a => decide (c < a)
  | none => false

/-- Masked strict less-than against a constant: a masked entry compares false. -/
def mlt (x : Option ℚ) (c : ℚ) : Bool :=
  match x with
  | some a => decide (a < c)
  | none => false

/-- The two in-place column additions
`sdss_mass['J-H'] = sdss_mass['Jmag'] - sdss_mass['Hmag']` and
`sdss_mass['H-K'] = sdss_mass['Hmag'] - sdss_mass['Kmag']`, per row. -/
def addColors (r : JoinedRow) : DerivedRow :=
  ⟨r, msub r.Jmag r.Hmag, msub r.Hmag r.Kmag⟩

/-- The boolean selection index
`index_bd = (umag > 22.0) & (gmag > 22.2) & (J-H < 0.3) & (H-K < 0.3)`,
per row. `22.0 = 22`, `22.2 = 111/5`, `0.3 = 3/10`. -/
def index_bd (d : DerivedRow) : Bool :=
  mgt d.base.umag 22 && mgt d.base.gmag (111 / 5) &&
    mlt d.jmh (3 / 10) && mlt d.hmk (3 / 10)

/-- The whole filtering cell on a joined table: add the two colour columns to
every row, then keep the rows selected by `index_bd`
(`candidates = sdss_mass[index_bd]`). -/
def candidates (t : List JoinedRow) : List DerivedRow :=
  (t.map addColors).filter index_bd

/-- Re-running the filtering cell on a table that already has the two colour
columns: the assignments overwrite `J-H` and `H-K` (recomputed from `Jmag`,
`Hmag`, `Kmag`), then `index_bd` selects rows as before. -/
def candidatesD (t : List DerivedRow) : List DerivedRow :=
  (t.map (fun d => addColors d.base)).filter index_bd

/-- The selection criterion exactly as the spec states it, a second definition
written from the spec words to compare with the code's `index_bd`:
`umag > 22.0 ∧ gmag > 22.2 ∧ (Jmag − Hmag) < 0.3 ∧ (Hmag − Kmag) < 0.3`,
all inequalities strict, on the present (non-masked) values of the row. -/
def specCriterion (r : JoinedRow) : Prop :=
  (∃ u, r.umag = some u ∧ 22 < u) ∧
  (∃ g, r.gmag = some g ∧ (111 : ℚ) / 5 < g) ∧
  (∃ j h, r.Jmag = some j ∧ r.Hmag = some h ∧ j - h < 3 / 10) ∧
  (∃ h k, r.Hmag = some h ∧ r.Kmag = some k ∧ h - k < 3 / 10)

/-- The joined row of the spec's end-to-end scenario:
`umag=23.1, gmag=22.5, Jmag=15.0, Hmag=14.8, Kmag=14.7`; the remaining columns
are not read by the filter and carry arbitrary concrete values. -/
def exampleRow : JoinedRow :=
  ⟨"J0000", 0, 0, some 15, some (74 / 5), some (147 / 10),
    "S0000", 0, 0, some (231 / 10), some (45 / 2), some 22, some 21, some 20, 6⟩

/-- A joined row with a masked `umag`, otherwise identical to `exampleRow`. -/
def maskedRow : JoinedRow :=
  ⟨"J0001", 0, 0, some 15, some (74 / 5), some (147 / 10),
    "S0001", 0, 0, none, some (45 / 2), some 22, some 21, some 20, 6⟩

/-- The fifteen column names of the projection
`sdss_mass['2MASS', 'RAJ2000', 'DEJ2000', 'Jmag', 'Hmag', 'Kmag', 'SDSS9',
'RAdeg', 'DEdeg', 'umag', 'gmag', 'rmag', 'imag', 'zmag', 'cl']`. -/
def sdssMassColumns : List String :=
  ["2MASS", "RAJ2000", "DEJ2000", "Jmag", "Hmag", "Kmag",
   "SDSS9", "RAdeg", "DEdeg", "umag", "gmag", "rmag", "imag", "zmag", "cl"]

/-- Every column name the filtering cell reads: the predicate reads `umag`,
`gmag` and the derived `J-H`, `H-K`; the derived-column computation reads
`Jmag`, `Hmag`, `Kmag`. -/
def filterReadColumns : List String :=
  ["umag", "gmag", "Jmag", "Hmag", "Kmag", "J-H", "H-K"]

/-- The column names read by the derived-colour computation alone. -/
def derivedReadColumns : List String :=
  ["Jmag", "Hmag", "Kmag"]

/-- The column names read by the boolean predicate `index_bd` alone. -/
def predicateReadColumns : List String :=
  ["umag", "gmag", "J-H", "H-K"]

/-- The schema of `sdss_mass` at the moment `index_bd` is evaluated: the
fifteen projected columns plus the two colour columns just added in place. -/
def schemaAfterDerived : List String :=
  sdssMassColumns ++ ["J-H", "H-K"]

/-- Modelled from the spec: the cross-matching algorithm itself runs in the
external CDS XMatch service and is not part of this repository; the notebook
only issues `XMatch.query(..., max_distance=4 * u.arcsec, ...)`. Following the
boundary contract of spec §4.3 and §3, the service returns one joined row per
pair of input rows whose sky positions lie within the maximum matching
distance. `sep` abstracts the angular-separation function (in arc-seconds). -/
def xmatch {α β : Type} (sep : α → β → ℚ) (maxDist : ℚ)
    (t1 : List α) (t2 : List β) : List (α × β) :=
  t1.flatMap fun a =>
    (t2.filter fun b => decide (sep a b ≤ maxDist)).map fun b => (a, b)

theorem index_bd_iff_specCriterion (r : JoinedRow) :
    index_bd (addColors r) = true ↔ specCriterion r := by
  cases hu : r.umag <;> cases hg : r.gmag <;> cases hj : r.Jmag <;>
    cases hh : r.Hmag <;> cases hk : r.Kmag <;>
      (simp [index_bd, addColors, specCriterion, mgt, mlt, msub, hu, hg, hj, hh, hk];
        try tauto)

/-- C6: applying the candidate filter to an empty input table yields an empty
output table; the embedding is a total function, so no exception can arise. -/
theorem candidates_empty : candidates [] = [] := rfl

/-- C5: on the scenario row `umag=23.1, gmag=22.5, Jmag=15.0, Hmag=14.8,
Kmag=14.7` the derived columns evaluate to `J-H = 0.2` and `H-K = 0.1`, the
four-way predicate evaluates to true, and the row appears in the candidate
output. -/
theorem example_row_is_candidate :
    (addColors exampleRow).jmh = some (1 / 5) ∧
    (addColors exampleRow).hmk = some (1 / 10) ∧
    index_bd (addColors exampleRow) = true ∧
    addColors exampleRow ∈ candidates [exampleRow] := by
  have hpred : index_bd (addColors exampleRow) = true := by
    norm_num [index_bd, addColors, exampleRow, mgt, mlt, msub]
  refine ⟨?_, ?_, hpred, ?_⟩
  · norm_num [addColors, exampleRow, msub]
  · norm_num [addColors, exampleRow, msub]
  · simp only [candidates, List.map_cons, List.map_nil]
    exact List.mem_filter.mpr ⟨List.mem_singleton.mpr rfl, hpred⟩

/-- C1: a row of the joined table appears in the candidate output (unchanged
except for the two derived colour columns) if and only if it satisfies the
conjunction `umag > 22.0 ∧ gmag > 22.2 ∧ (Jmag − Hmag) < 0.3 ∧
(Hmag − Kmag) < 0.3`, all inequalities strict; a row failing any conjunct is
absent. -/
theorem candidates_mem_iff (t : List JoinedRow) (r : JoinedRow) (hr : r ∈ t) :
    (addColors r).base = r ∧ (addColors r ∈ candidates t ↔ specCriterion r) := by
  refine ⟨rfl, ?_⟩
  rw [← index_bd_iff_specCriterion]
  constructor
  · intro hmem
    exact List.of_mem_filter hmem
  · intro hidx
    exact List.mem_filter.mpr ⟨List.mem_map_of_mem addColors hr, hidx⟩

/-- Witness for C1 at the spec's scenario row in a one-row table. -/
theorem candidates_mem_iff_witness :
    exampleRow ∈ [exampleRow] ∧
    ((addColors exampleRow).base = exampleRow ∧
      (addColors exampleRow ∈ candidates [exampleRow] ↔ specCriterion exampleRow)) :=
  ⟨List.mem_singleton.mpr rfl,
    candidates_mem_iff [exampleRow] exampleRow (List.mem_singleton.mpr rfl)⟩

/-- C2: a joined row with a masked (missing) value in any of `umag`, `gmag`,
`Jmag`, `Hmag`, `Kmag` makes the selection predicate evaluate to `false` —
the evaluation is a total function, so no error can arise — and no row of the
candidate output is that row. -/
theorem masked_rows_excluded (t : List JoinedRow) (r : JoinedRow)
    (hmask : r.umag = none ∨ r.gmag = none ∨ r.Jmag = none ∨
      r.Hmag = none ∨ r.Kmag = none) :
    index_bd (addColors r) = false ∧ ∀ d ∈ candidates t, d.base ≠ r := by
  have hfalse : index_bd (addColors r) = false := by
    cases hu : r.umag <;> cases hg : r.gmag <;> cases hj : r.Jmag <;>
      cases hh : r.Hmag <;> cases hk : r.Kmag <;>
        simp_all [index_bd, addColors, mgt, mlt, msub]
  refine ⟨hfalse, ?_⟩
  intro d hd hbase
  rcases List.mem_filter.mp hd with ⟨hmem, hidx⟩
  rcases List.mem_map.mp hmem with ⟨s, hs, rfl⟩
  have hsr : s = r := hbase
  rw [hsr, hfalse] at hidx
  exact Bool.false_ne_true hidx

/-- Witness for C2 at a row whose `umag` is masked, in a one-row table. -/
theorem masked_rows_excluded_witness :
    (maskedRow.umag = none ∨ maskedRow.gmag = none ∨ maskedRow.Jmag = none ∨
      maskedRow.Hmag = none ∨ maskedRow.Kmag = none) ∧
    (index_bd (addColors maskedRow) = false ∧
      ∀ d ∈ candidates [maskedRow], d.base ≠ maskedRow) :=
  ⟨Or.inl rfl, masked_rows_excluded [maskedRow] maskedRow (Or.inl rfl)⟩

/-- C3: the candidate filter is idempotent — re-running the filtering cell
(recomputing the two colour columns and re-applying `index_bd`) on its own
output yields exactly the same table. -/
theorem candidates_idempotent (t : List JoinedRow) :
    candidatesD (candidates t) = candidates t := by
  have hmap : (candidates t).map (fun d => addColors d.base) = candidates t := by
    conv_rhs => rw [← List.map_id (candidates t)]
    refine List.map_congr_left ?_
    intro d hd
    rcases List.mem_map.mp (List.mem_of_mem_filter hd) with ⟨r, hr, rfl⟩
    rfl
  have hall : ∀ d ∈ candidates t, index_bd d = true :=
    fun d hd => List.of_mem_filter hd
  unfold candidatesD
  rw [hmap]
  exact List.filter_eq_self.mpr hall

/-- C4: the candidate output is a subsequence of the input rows — every output
row occurs in the input, relative order is preserved, and no row is duplicated
or synthesized. -/
theorem candidates_sublist (t : List JoinedRow) :
    List.Sublist ((candidates t).map DerivedRow.base) t := by
  induction t with
  | nil => simp [candidates]
  | cons r rs ih =>
    by_cases h : index_bd (addColors r) = true
    · have hc : candidates (r :: rs) = addColors r :: candidates rs := by
        simp [candidates, List.filter_cons, h]
      rw [hc, List.map_cons]
      exact List.Sublist.cons₂ r ih
    · have hc : candidates (r :: rs) = candidates rs := by
        simp [candidates, List.filter_cons, h]
      rw [hc]
      exact List.Sublist.cons r ih

/-- C7: the candidate filter is a pure function of its input table — the
embedding performs no I/O and reads no external state, and identical input
tables always yield identical output tables. -/
theorem candidates_deterministic (t1 t2 : List JoinedRow) (h : t1 = t2) :
    candidates t1 = candidates t2 :=
  congrArg candidates h

/-- Witness for C7 on two (syntactically identical) one-row tables. -/
theorem candidates_deterministic_witness :
    ([exampleRow] = [exampleRow]) ∧
      candidates [exampleRow] = candidates [exampleRow] :=
  ⟨rfl, candidates_deterministic [exampleRow] [exampleRow] rfl⟩

/-- C8: with the 4 arc-second threshold of the notebook's cross-match call,
rows whose positions are separated by 4.5 arc-seconds are never joined, and
rows separated by 3.5 arc-seconds are always joined (under either boundary
convention, since 4.5 > 4 and 3.5 < 4). -/
theorem xmatch_threshold {α β : Type} (sep : α → β → ℚ) (t1 : List α)
    (t2 : List β) (a : α) (b : β) (ha : a ∈ t1) (hb : b ∈ t2) :
    (sep a b = 9 / 2 → (a, b) ∉ xmatch sep 4 t1 t2) ∧
    (sep a b = 7 / 2 → (a, b) ∈ xmatch sep 4 t1 t2) := by
  constructor
  · intro hsep hmem
    rcases List.mem_flatMap.mp hmem with ⟨x, hx, hpair⟩
    rcases List.mem_map.mp hpair with ⟨y, hy, heq⟩
    injection heq with hxa hyb
    subst hxa
    subst hyb
    rcases List.mem_filter.mp hy with ⟨hyt, hdist⟩
    rw [hsep] at hdist
    norm_num at hdist
  · intro hsep
    refine List.mem_flatMap.mpr ⟨a, ha, ?_⟩
    refine List.mem_map.mpr ⟨b, ?_, rfl⟩
    refine List.mem_filter.mpr ⟨hb, ?_⟩
    rw [hsep]
    norm_num

/-- A concrete separation function for the C8 witness: every pair of the two
one-point tables below is 4.5 arc-seconds apart. -/
def sepConst : ℚ → ℚ → ℚ := fun _ _ => 9 / 2

/-- Witness for C8 with singleton tables and the constant separation 4.5. -/
theorem xmatch_threshold_witness :
    ((0 : ℚ) ∈ [(0 : ℚ)]) ∧ ((0 : ℚ) ∈ [(0 : ℚ)]) ∧
    ((sepConst 0 0 = 9 / 2 → ((0 : ℚ), (0 : ℚ)) ∉ xmatch sepConst 4 [0] [0]) ∧
     (sepConst 0 0 = 7 / 2 → ((0 : ℚ), (0 : ℚ)) ∈ xmatch sepConst 4 [0] [0])) :=
  ⟨List.mem_singleton.mpr rfl, List.mem_singleton.mpr rfl,
    xmatch_threshold sepConst [0] [0] 0 0
      (List.mem_singleton.mpr rfl) (List.mem_singleton.mpr rfl)⟩

/-- C9: every row of the candidate output has present `Jmag` and `Kmag` values
with `Jmag - Kmag < 0.6`, since the two strict colour cuts bound the total
J-to-K colour. -/
theorem candidate_total_color_bound (t : List JoinedRow) (d : DerivedRow)
    (hd : d ∈ candidates t) :
    ∃ j k, d.base.Jmag = some j ∧ d.base.Kmag = some k ∧ j - k < 3 / 5 := by
  rcases List.mem_filter.mp hd with ⟨hmem, hidx⟩
  rcases List.mem_map.mp hmem with ⟨r, hr, rfl⟩
  rcases (index_bd_iff_specCriterion r).mp hidx with
    ⟨hu, hg, ⟨j, h1, hJ, hH1, hjh⟩, h2, k, hH2, hK, hhk⟩
  rw [hH1] at hH2
  injection hH2 with he
  subst he
  exact ⟨j, k, hJ, hK, by linarith⟩

/-- Witness for C9 at the scenario row in a one-row table. -/
theorem candidate_total_color_bound_witness :
    (addColors exampleRow ∈ candidates [exampleRow]) ∧
    (∃ j k, (addColors exampleRow).base.Jmag = some j ∧
      (addColors exampleRow).base.Kmag = some k ∧ j - k < 3 / 5) := by
  have hpred : index_bd (addColors exampleRow) = true := by
    norm_num [index_bd, addColors, exampleRow, mgt, mlt, msub]
  have hmem : addColors exampleRow ∈ candidates [exampleRow] := by
    simp only [candidates, List.map_cons, List.map_nil]
    exact List.mem_filter.mpr ⟨List.mem_singleton.mpr rfl, hpred⟩
  exact ⟨hmem, candidate_total_color_bound [exampleRow] (addColors exampleRow) hmem⟩

/-- C10 counterexample: not every column the filter reads is present in the
fifteen-column projection — the derived column name `J-H` (and likewise
`H-K`) is not among the fifteen projected columns. -/
theorem filter_read_not_all_in_projection :
    ¬ ∀ c ∈ filterReadColumns, c ∈ sdssMassColumns := by
  intro h
  have hm := h "J-H" (by simp [filterReadColumns])
  simp [sdssMassColumns] at hm

/-- C10 amended: every column the derived-colour computation reads is in the
fifteen-column projection, and every column the predicate reads is in the
schema obtained from that projection after the two in-place colour-column
additions, so no column lookup in the filtering cell can fail. -/
theorem filter_read_columns_present :
    (∀ c ∈ derivedReadColumns, c ∈ sdssMassColumns) ∧
    (∀ c ∈ predicateReadColumns, c ∈ schemaAfterDerived) := by
  constructor <;>
    · intro c hc
      fin_cases hc <;>
        simp [sdssMassColumns, schemaAfterDerived]

end BrownDwarfs
